import Mathlib

/-!
A shallow embedding of the `rita` event-sourcing library (Go), covering the
type registry (`types` package) and the event store (`eventstore.go`), for
verification of its specification.  Machine integers are modelled as `Nat`
(sequence numbers only increase and never approach 2^64 in any statement
here), Go errors as an explicit inductive, fallible Go functions as `Except`,
and the external NATS collaborator as explicit parameters (a publish function
for `Append`, a broker snapshot for `Load`).
-/

/-- Go errors.  Sentinel errors declared with `errors.New` in the sources get
their own constructor so that identity comparisons (`errors.Is`) are faithful;
ad-hoc errors built with `errors.New`/`fmt.Errorf` inline are `plain`, and
`fmt.Errorf` wrapping with a sentinel is `wrapped`. -/
inductive GoErr where
  | typeNotValid (detail : String)
  | typeNotRegistered (name : String)
  | noTypeForStruct (ty : String)
  | codecNotRegistered (name : String)
  | seqConflict
  | eventTypeRequired
  | eventIDRequired
  | plain (msg : String)
  | wrapped (ctx : String) (e : GoErr)
deriving DecidableEq

/-- The text produced by `err.Error()` for each modelled error. -/
def errText : GoErr → String
  | .typeNotValid d => "rita: type not valid: " ++ d
  | .typeNotRegistered n => "rita: type not registered: " ++ n
  | .noTypeForStruct t => "rita: no type for struct: " ++ t
  | .codecNotRegistered n => "rita: codec not registered: " ++ n
  | .seqConflict => "rita: sequence conflict"
  | .eventTypeRequired => "rita: event type required"
  | .eventIDRequired => "rita: event id required"
  | .plain m => m
  | .wrapped c e => c ++ ": " ++ errText e

/-- Does `pat` occur at the start of `hay`?  (Model of Go string prefix test.) -/
def startsW : List Char → List Char → Bool
  | _, [] => true
  | [], _ :: _ => false
  | a :: as, b :: bs => a == b && startsW as bs

/-- Model of Go `strings.Contains` over the characters of the two strings. -/
def hasSub (hay pat : List Char) : Bool :=
  match hay with
  | [] => pat.isEmpty
  | _ :: t => startsW hay pat || hasSub t pat

def strContains (s pat : String) : Bool := hasSub s.toList pat.toList

/-- A character of the Go regexp class `[\w-]` (ASCII `\w` plus dash). -/
def wordChar (c : Char) : Bool := c.isAlphanum || c == '_' || c == '-'

/-- Scanner equivalent to the Go regexp `^[\w-]+(\.[\w-]+)*$`: segments of one
or more `[\w-]` characters separated by single dots.  `inSeg` records whether
at least one segment character has been read since the start or the last dot. -/
def nameScan : List Char → Bool → Bool
  | [], inSeg => inSeg
  | c :: rest, inSeg =>
    if wordChar c then nameScan rest true
    else if c == '.' then inSeg && nameScan rest false
    else false

/-- `nameRegex.MatchString` from the `types` package. -/
def validTypeName (s : String) : Bool := nameScan s.toList false

/-- Model of `reflect.Type` for the shapes the registry distinguishes. -/
inductive RType where
  | ptrTo (e : RType)
  | structTy (n : String)
  | bytesTy
  | primTy (n : String)
  | nilTy
deriving DecidableEq

/-- Model of a Go interface value (`any`). -/
inductive GoVal where
  | nil
  | ptr (v : GoVal)
  | structVal (shape : String) (fields : List (String × String))
  | bytes (bs : List Nat)
  | prim (ty : String) (v : String)
deriving DecidableEq

/-- `reflect.TypeOf`. -/
def typeOf : GoVal → RType
  | .nil => .nilTy
  | .ptr v => .ptrTo (typeOf v)
  | .structVal s _ => .structTy s
  | .bytes _ => .bytesTy
  | .prim t _ => .primTy t

/-- `reflect.Type.Elem` (meaningful on pointers; on other types Go panics, and
every call site below is guarded so the fallback arm is unreachable). -/
def RType.elem : RType → RType
  | .ptrTo e => e
  | t => t

/-- Printed form of a type, standing in for `%T` / `reflect.Type.String`. -/
def typeDesc : RType → String
  | .ptrTo e => "*" ++ typeDesc e
  | .structTy n => n
  | .bytesTy => "[]uint8"
  | .primTy n => n
  | .nilTy => "<nil>"

/-- The wire form a codec produces: either raw bytes (the binary passthrough
codec) or an opaque encoding of a value (structured codecs such as JSON,
which are external collaborators specified only by their
marshal/unmarshal contract). -/
inductive Wire where
  | raw (bs : List Nat)
  | enc (v : GoVal)
deriving DecidableEq

/-- A codec (`codec.Codec`): named, with marshal and unmarshal.  Unmarshal is
modelled state-passing: it takes the target value (a pointer in Go) and
returns the overwritten value. -/
structure Codec where
  name : String
  marshal : GoVal → Except GoErr Wire
  unmarshal : Wire → GoVal → Except GoErr GoVal

/-- `codec/binary.go`: marshal passes a byte slice through and rejects
anything else; unmarshal requires a `*[]byte` target.  (The
`encoding.BinaryMarshaler` fast path is not modelled: no value in this
development carries that method.) -/
def binaryCodec : Codec where
  name := "binary"
  marshal v :=
    match v with
    | .bytes bs => .ok (.raw bs)
    | _ => .error (.plain "value not []byte")
  unmarshal w v :=
    match v with
    | .ptr (.bytes _) =>
      match w with
      | .raw bs => .ok (.ptr (.bytes bs))
      | .enc _ => .error (.plain "value not []byte")
    | _ => .error (.plain "value must be *[]byte")

/-- Dereference a pointer value; Go marshalers follow pointers. -/
def derefVal : GoVal → GoVal
  | .ptr x => x
  | v => v

/-- A structured codec (JSON and friends), modelled at its contract: marshal
encodes the pointee opaquely, unmarshal overwrites the pointee of a pointer
target with the decoded value and rejects non-pointer targets. -/
def encCodec (nm : String) : Codec where
  name := nm
  marshal v := .ok (.enc (derefVal v))
  unmarshal w v :=
    match v with
    | .ptr _ =>
      match w with
      | .enc d => .ok (.ptr d)
      | .raw _ => .error (.plain (nm ++ ": cannot decode raw bytes"))
    | _ => .error (.plain (nm ++ ": unmarshal target must be a pointer"))

def jsonCodec : Codec := encCodec "json"
def msgpackCodec : Codec := encCodec "msgpack"
def protobufCodec : Codec := encCodec "protobuf"

/-- The global `codec.Codecs` map, keyed by codec name. -/
def Codecs : List (String × Codec) :=
  [("binary", binaryCodec), ("json", jsonCodec),
   ("msgpack", msgpackCodec), ("protobuf", protobufCodec)]

/-- Association-list lookup, modelling a Go map read. -/
def lookupA {α β : Type} [DecidableEq α] : List (α × β) → α → Option β
  | [], _ => none
  | (k, v) :: t, x => if k = x then some v else lookupA t x

/-- Drop every binding of key `k`. -/
def eraseKey {α β : Type} [DecidableEq α] : List (α × β) → α → List (α × β)
  | [], _ => []
  | p :: t, k => if p.1 = k then eraseKey t k else p :: eraseKey t k

/-- Association-list insert, modelling a Go map write (overwrites). -/
def insertA {α β : Type} [DecidableEq α] (l : List (α × β)) (k : α) (v : β) :
    List (α × β) :=
  (k, v) :: eraseKey l k

/-- `types.Type`: a descriptor holding the zero-value factory.  `none` models
a nil `Init` function. -/
structure GoType where
  init : Option (Unit → GoVal)

/-- `types.Registry`. -/
structure Registry where
  codec : Codec
  types : List (String × GoType)
  rtypes : List (RType × String)

def Registry.Codec' (r : Registry) : Codec := r.codec

/-- `Registry.validate` (part_011 lines 77-121), in source order: empty name,
name syntax, nil factory, nil factory result, non-pointer result, non-struct
pointee, then a marshal/unmarshal round trip of the zero value through the
registry's codec. -/
def Registry.validate (r : Registry) (name : String) (typ : GoType) :
    Except GoErr Unit :=
  if name = "" then .error (.typeNotValid "missing name")
  else if validTypeName name = false then
    .error (.typeNotValid ("name " ++ name ++ " has invalid characters"))
  else
    match typ.init with
    | none => .error (.typeNotValid (name ++ ": init func is nil"))
    | some f =>
      let v := f ()
      if v = GoVal.nil then
        .error (.typeNotValid (name ++ ": init func returns nil"))
      else
        match typeOf v with
        | .ptrTo et =>
          match et with
          | .structTy _ =>
            match r.codec.marshal v with
            | .error e =>
              .error (.typeNotValid
                (name ++ ": failed to marshal with codec: " ++ errText e))
            | .ok b =>
              match r.codec.unmarshal b v with
              | .error e =>
                .error (.typeNotValid
                  (name ++ ": failed to unmarshal with codec: " ++ errText e))
              | .ok _ => .ok ()
          | _ => .error (.typeNotValid (name ++ ": value type must be a struct"))
        | _ =>
          .error (.typeNotValid (name ++ ": init func must return a pointer value"))

/-- `Registry.addType`: index the descriptor by name and index the factory's
produced reflect type, and that type's pointee, to the name.  A nil factory
never reaches here from `NewRegistry` (validation rejects it first). -/
def Registry.addType (r : Registry) (name : String) (typ : GoType) : Registry :=
  match typ.init with
  | none => r
  | some f =>
    let v := f ()
    let rt := typeOf v
    { r with
      types := insertA r.types name typ
      rtypes := insertA (insertA r.rtypes rt name) rt.elem name }

/-- `Registry.Init`: allocate a fresh value for a registered name.  The
`plain` arm models the Go panic of invoking a nil `Init` and is unreachable
for registries built by `NewRegistry`. -/
def Registry.Init (r : Registry) (t : String) : Except GoErr GoVal :=
  match lookupA r.types t with
  | none => .error (.typeNotRegistered t)
  | some x =>
    match x.init with
    | some f => .ok (f ())
    | none => .error (.plain "nil init func invoked")

/-- `Registry.Lookup`: the registered name for a value's reflect type. -/
def Registry.Lookup (r : Registry) (v : GoVal) : Except GoErr String :=
  let rt := typeOf v
  match lookupA r.rtypes rt with
  | none => .error (.noTypeForStruct (typeDesc rt))
  | some t => .ok t

/-- `Registry.Marshal`: check the shape is registered, then delegate to the
codec, wrapping a codec failure with the value's type. -/
def Registry.Marshal (r : Registry) (v : GoVal) : Except GoErr Wire :=
  match r.Lookup v with
  | .error e => .error e
  | .ok _ =>
    match r.codec.marshal v with
    | .error e => .error (.wrapped (typeDesc (typeOf v) ++ ": marshal error") e)
    | .ok b => .ok b

/-- `Registry.Unmarshal`: check the target's shape is registered, then
delegate to the codec, wrapping a codec failure with the target's type. -/
def Registry.Unmarshal (r : Registry) (b : Wire) (v : GoVal) :
    Except GoErr GoVal :=
  match r.Lookup v with
  | .error e => .error e
  | .ok _ =>
    match r.codec.unmarshal b v with
    | .error e => .error (.wrapped (typeDesc (typeOf v) ++ ": unmarshal error") e)
    | .ok w => .ok w

/-- A registry construction option (`types.RegistryOption`). -/
def RegOpt : Type := Registry → Except GoErr Registry

/-- The `types.Codec` option: select a codec by name from the global map. -/
def codecOpt (nm : String) : RegOpt := fun r =>
  match lookupA Codecs nm with
  | none => .error (.codecNotRegistered nm)
  | some c => .ok { r with codec := c }

def applyRegOpts : List RegOpt → Registry → Except GoErr Registry
  | [], r => .ok r
  | o :: rest, r =>
    match o r with
    | .error e => .error e
    | .ok r' => applyRegOpts rest r'

/-- The registration loop of `NewRegistry`: validate each descriptor and add
it, aborting on the first failure.  The descriptor list stands for one
iteration order of the Go map. -/
def newRegistryLoop : List (String × GoType) → Registry → Except GoErr Registry
  | [], r => .ok r
  | (n, t) :: rest, r =>
    match r.validate n t with
    | .error e => .error e
    | .ok _ => newRegistryLoop rest (r.addType n t)

/-- `types.NewRegistry`: default codec is `codec.Default` (JSON), then apply
options, then validate-and-add every descriptor. -/
def NewRegistry (descs : List (String × GoType)) (opts : List RegOpt) :
    Except GoErr Registry :=
  match applyRegOpts opts { codec := jsonCodec, types := [], rtypes := [] } with
  | .error e => .error e
  | .ok r => newRegistryLoop descs r

/-- `rita.Event` (eventstore.go lines 40-67).  Time is a `Nat`; `0` models
Go's zero `time.Time`. -/
structure Event where
  id : String
  time : Nat
  typ : String
  data : GoVal
  meta : List (String × String)
  subject : String
  sequence : Nat
deriving DecidableEq

/-- The `Rita` handle: the optional type registry plus the identity-generator
and clock collaborators (abstracted to the values they yield) and the method
set of payload types for the optional `validator` capability:
`validatorImpl v = some r` when `v`'s type implements `Validate() error`,
with `r = some e` when that call returns error `e`. -/
structure Rita where
  types : Option Registry
  idNew : String
  now : Nat
  validatorImpl : GoVal → Option (Option GoErr)

/-- `rita.EventStore`: a store name bound to a `Rita` handle. -/
structure EventStore where
  name : String
  rt : Rita

/-- The tail of `wrapEvent` after the type checks: optional payload
validation, then defaulting of identity and time. -/
def finishWrap (s : EventStore) (event : Event) : Except GoErr Event :=
  match s.rt.validatorImpl event.data with
  | some (some e) => .error e
  | _ =>
    let ev1 := if event.id = "" then { event with id := s.rt.idNew } else event
    let ev2 := if ev1.time = 0 then { ev1 with time := s.rt.now } else ev1
    .ok ev2

/-- The head of `wrapEvent` (eventstore.go lines 164-183): reject nil data;
with no registry require an explicit type, with a registry resolve the type
from the payload shape and cross-check an explicit one. -/
def resolveType (s : EventStore) (event : Event) : Except GoErr Event :=
  if event.data = GoVal.nil then .error (.plain "event data is nil")
  else
    match s.rt.types with
    | none =>
      if event.typ = "" then .error (.plain "event type is not defined")
      else .ok event
    | some reg =>
      match reg.Lookup event.data with
      | .error e => .error e
      | .ok t =>
        if event.typ = "" then .ok { event with typ := t }
        else if event.typ = t then .ok event
        else .error (.plain ("wrong type for event data: " ++ event.typ))

/-- `EventStore.wrapEvent` (eventstore.go lines 163-202): type resolution
followed by optional payload validation and identity/time defaulting. -/
def EventStore.wrapEvent (s : EventStore) (event : Event) : Except GoErr Event :=
  match resolveType s event with
  | .error e => .error e
  | .ok ev => finishWrap s ev

def natsMsgIdHdr : String := "Nats-Msg-Id"
def eventTypeHdr : String := "rita-type"
def eventTimeHdr : String := "rita-time"
def eventCodecHdr : String := "rita-codec"
def eventMetaPrefixHdr : String := "rita-meta-"

/-- A NATS message: subject, body, headers, and (for stored messages) the
stream sequence that `msg.Metadata()` reports.  Outgoing messages carry 0. -/
structure Msg where
  subject : String
  data : Wire
  headers : List (String × String)
  seq : Nat
deriving DecidableEq

def hdrGet (hs : List (String × String)) (k : String) : String :=
  (lookupA hs k).getD ""

/-- `time.Format` / `time.Parse` with the fixed event time format, modelled as
decimal printing of the `Nat` clock. -/
def formatTime (t : Nat) : String := toString t

def parseDigits : List Char → Nat → Option Nat
  | [], acc => some acc
  | c :: rest, acc =>
    if c.isDigit then parseDigits rest (acc * 10 + (c.toNat - 48)) else none

def parseTime (s : String) : Option Nat :=
  match s.toList with
  | [] => none
  | cs => parseDigits cs 0

/-- The marshalling step of `packEvent` (eventstore.go lines 208-224): binary
passthrough without a registry, the registry's codec with one; paired with
the codec name recorded in the envelope. -/
def encodePayload (s : EventStore) (event : Event) :
    Except GoErr (Wire × String) :=
  match s.rt.types with
  | none =>
    match binaryCodec.marshal event.data with
    | .error e => .error e
    | .ok b => .ok (b, binaryCodec.name)
  | some reg =>
    match reg.Marshal event.data with
    | .error e => .error e
    | .ok b => .ok (b, reg.codec.name)

/-- `EventStore.packEvent` (eventstore.go lines 207-240): marshal the payload
and map the envelope onto headers, metadata entries under the meta prefix. -/
def EventStore.packEvent (s : EventStore) (subject : String) (event : Event) :
    Except GoErr Msg :=
  match encodePayload s event with
  | .error e => .error e
  | .ok bc =>
    let hs1 := insertA [] natsMsgIdHdr event.id
    let hs2 := insertA hs1 eventTypeHdr event.typ
    let hs3 := insertA hs2 eventTimeHdr (formatTime event.time)
    let hs4 := insertA hs3 eventCodecHdr bc.2
    let hs5 := event.meta.foldl
      (fun hs kv => insertA hs (eventMetaPrefixHdr ++ kv.1) kv.2) hs4
    .ok { subject := subject, data := bc.1, headers := hs5, seq := 0 }

/-- Strip the metadata header prefix from a header key, when present. -/
def stripMetaPre (k : String) : Option String :=
  if startsW k.toList eventMetaPrefixHdr.toList then
    some (String.mk (k.toList.drop eventMetaPrefixHdr.toList.length))
  else none

def collectMeta (hs : List (String × String)) : List (String × String) :=
  hs.foldl
    (fun m kv =>
      match stripMetaPre kv.1 with
      | some key => insertA m key (hdrGet hs kv.1)
      | none => m)
    []

/-- `EventStore.unpackEvent` (eventstore.go lines 243-302).  Note: in the
registry branch the Go source shadows `err` (`v, err := ... Init`), so a
codec unmarshal failure there is dropped and the partially filled target is
kept; the embedding reproduces that. -/
def EventStore.unpackEvent (s : EventStore) (msg : Msg) : Except GoErr Event :=
  let eventType := hdrGet msg.headers eventTypeHdr
  let codecName := hdrGet msg.headers eventCodecHdr
  match lookupA Codecs codecName with
  | none => .error (.codecNotRegistered codecName)
  | some c =>
    let dataRes : Except GoErr GoVal :=
      match s.rt.types with
      | none =>
        match c.unmarshal msg.data (GoVal.ptr (GoVal.bytes [])) with
        | .error e => .error e
        | .ok w => .ok (derefVal w)
      | some reg =>
        match reg.Init eventType with
        | .error e => .error e
        | .ok v =>
          match c.unmarshal msg.data v with
          | .error _ => .ok v
          | .ok w => .ok w
    match dataRes with
    | .error e => .error e
    | .ok data =>
      match parseTime (hdrGet msg.headers eventTimeHdr) with
      | none => .error (.plain "unpack: failed to parse event time")
      | some t =>
        .ok { id := hdrGet msg.headers natsMsgIdHdr
              typ := eventType
              time := t
              data := data
              meta := collectMeta msg.headers
              subject := msg.subject
              sequence := msg.seq }

/-- `appendOpts`. -/
structure appendOpts where
  expSeq : Option Nat
deriving DecidableEq

/-- `rita.AppendOption`. -/
def AppendOption : Type := appendOpts → Except GoErr appendOpts

/-- `rita.ExpectSequence`. -/
def ExpectSequence (seq : Nat) : AppendOption := fun o =>
  .ok { o with expSeq := some seq }

def applyAppendOpts : List AppendOption → appendOpts → Except GoErr appendOpts
  | [], o => .ok o
  | f :: rest, o =>
    match f o with
    | .error e => .error e
    | .ok o' => applyAppendOpts rest o'

/-- `loadOpts`. -/
structure loadOpts where
  afterSeq : Option Nat
deriving DecidableEq

/-- `rita.LoadOption`. -/
def LoadOption : Type := loadOpts → Except GoErr loadOpts

/-- `rita.AfterSequence`. -/
def AfterSequence (seq : Nat) : LoadOption := fun o =>
  .ok { o with afterSeq := some seq }

def applyLoadOpts : List LoadOption → loadOpts → Except GoErr loadOpts
  | [], o => .ok o
  | f :: rest, o =>
    match f o with
    | .error e => .error e
    | .ok o' => applyLoadOpts rest o'

/-- Publish options attached to one `js.PublishMsg` call. -/
structure PubOpts where
  expectStream : Option String
  expectLastSeqPerSubject : Option Nat
deriving DecidableEq

/-- `nats.PubAck`. -/
structure PubAck where
  stream : String
  sequence : Nat
deriving DecidableEq

instance {ε α : Type} [DecidableEq ε] [DecidableEq α] :
    DecidableEq (Except ε α) := fun x y =>
  match x, y with
  | .error a, .error b =>
    if h : a = b then .isTrue (congrArg _ h)
    else .isFalse (fun hh => h (Except.error.inj hh))
  | .ok a, .ok b =>
    if h : a = b then .isTrue (congrArg _ h)
    else .isFalse (fun hh => h (Except.ok.inj hh))
  | .error _, .ok _ => .isFalse (fun hh => Except.noConfusion hh)
  | .ok _, .error _ => .isFalse (fun hh => Except.noConfusion hh)

/-- One publish interaction with the collaborator, as observed on the wire:
the message, its options, and the collaborator's response. -/
structure PubCall where
  msg : Msg
  opts : PubOpts
  resp : Except GoErr PubAck
deriving DecidableEq

/-- The outcome of `Append`: a sequence, an error, or the nil-acknowledgement
dereference reached when the loop body never ran. -/
inductive AppendRes where
  | ok (seq : Nat)
  | err (e : GoErr)
  | nilAckPanic
deriving DecidableEq

/-- The loop of `Append` (eventstore.go lines 417-449), parameterised by the
collaborator's publish behaviour `pub` over an abstract broker state.  `first`
holds exactly on the first iteration (`i == 0`), `ack` is the last successful
acknowledgement (nil before any), and the trace accumulates every publish
performed. -/
def appendLoop {σ : Type} (pub : σ → Msg → PubOpts → σ × Except GoErr PubAck)
    (s : EventStore) (subject : String) (expSeq : Option Nat) :
    List Event → σ → Bool → Option PubAck → List PubCall →
      σ × List PubCall × AppendRes
  | [], st, _, ack, tr =>
    match ack with
    | none => (st, tr, .nilAckPanic)
    | some a => (st, tr, .ok a.sequence)
  | event :: rest, st, first, _ack, tr =>
    let popts : PubOpts :=
      { expectStream := some s.name
        expectLastSeqPerSubject := if first then expSeq else none }
    match s.wrapEvent event with
    | .error e => (st, tr, .err e)
    | .ok e' =>
      match s.packEvent subject e' with
      | .error e => (st, tr, .err e)
      | .ok msg =>
        let str := pub st msg popts
        let tr' := tr ++ [⟨msg, popts, str.2⟩]
        match str.2 with
        | .error e =>
          if strContains (errText e) "wrong last sequence" then
            (str.1, tr', .err .seqConflict)
          else (str.1, tr', .err e)
        | .ok a => appendLoop pub s subject expSeq rest str.1 false (some a) tr'

/-- `EventStore.Append` (eventstore.go lines 408-450): apply options, then run
the publish loop; reaching the final return with no acknowledgement (empty
batch) is the nil dereference. -/
def EventStore.Append {σ : Type}
    (s : EventStore) (pub : σ → Msg → PubOpts → σ × Except GoErr PubAck)
    (st : σ) (subject : String) (events : List Event)
    (opts : List AppendOption) : σ × List PubCall × AppendRes :=
  match applyAppendOpts opts { expSeq := none } with
  | .error e => (st, [], .err e)
  | .ok o => appendLoop pub s subject o.expSeq events st true none []

/-- The collaborator state `Load` runs against: the result of the
last-message-for-subject query (`0` models "no message", the 404 case), a
possible subscription-open failure, and the subject's stored messages in
stream order. -/
structure LoadBroker where
  lastMsg : Except GoErr Nat
  subErr : Option GoErr
  msgs : List Msg

/-- The observable outcome of `Load`: the Go results plus whether a
subscription was opened. -/
structure LoadOut where
  events : List Event
  lastSeq : Nat
  err : Option GoErr
  subOpened : Bool
deriving DecidableEq

/-- `NextMsgWithContext` blocking on an exhausted stream until the context
gives up. -/
def ctxErr : GoErr := .plain "context deadline exceeded"

/-- The drain loop of `Load` (eventstore.go lines 384-401): fetch, unpack and
accumulate until the message carrying the snapshot's last sequence. -/
def drainLoop (s : EventStore) :
    List Msg → Nat → List Event → LoadOut
  | [], _, _ => ⟨[], 0, some ctxErr, true⟩
  | m :: rest, lastSeq, acc =>
    match s.unpackEvent m with
    | .error e => ⟨[], 0, some e, true⟩
    | .ok ev =>
      if ev.sequence = lastSeq then ⟨acc ++ [ev], lastSeq, none, true⟩
      else drainLoop s rest lastSeq (acc ++ [ev])

/-- `EventStore.Load` (eventstore.go lines 338-404): apply options, query the
subject's last sequence (empty answer short-circuits), short-circuit when
`afterSeq` already covers it, otherwise subscribe (from the beginning, or
from `afterSeq` skipping the first delivered message) and drain up to the
snapshot sequence. -/
def EventStore.Load (s : EventStore) (b : LoadBroker) (opts : List LoadOption) :
    LoadOut :=
  match applyLoadOpts opts { afterSeq := none } with
  | .error e => ⟨[], 0, some e, false⟩
  | .ok o =>
    match b.lastMsg with
    | .error e => ⟨[], 0, some e, false⟩
    | .ok lastSeq =>
      if lastSeq = 0 then ⟨[], 0, none, false⟩
      else
        match o.afterSeq with
        | some a =>
          if lastSeq ≤ a then ⟨[], 0, none, false⟩
          else
            match b.subErr with
            | some e => ⟨[], 0, some e, true⟩
            | none =>
              match b.msgs.filter (fun m => decide (a ≤ m.seq)) with
              | [] => ⟨[], 0, some ctxErr, true⟩
              | _ :: delivered => drainLoop s delivered lastSeq []
        | none =>
          match b.subErr with
          | some e => ⟨[], 0, some e, true⟩
          | none => drainLoop s b.msgs lastSeq []

/-- The fold loop of `Evolve` (eventstore.go lines 461-468), returning the
sequence reached, the error if any, and the evolved model. -/
def evolveLoop {M : Type} (step : M → Event → Except GoErr M) :
    List Event → M → Nat → Nat × Option GoErr × M
  | [], m, lastSeq => (lastSeq, none, m)
  | e :: rest, m, lastSeq =>
    match step m e with
    | .error err => (lastSeq, some err, m)
    | .ok m' => evolveLoop step rest m' e.sequence

/-- `EventStore.Evolve` (eventstore.go lines 455-470): load, then fold each
event into the model, reporting the sequence of the last event applied even
on failure.  The mutable Go receiver is modelled by the step function and the
returned model value. -/
def EventStore.Evolve {M : Type} (s : EventStore) (b : LoadBroker)
    (step : M → Event → Except GoErr M) (m : M) (opts : List LoadOption) :
    Nat × Option GoErr × M :=
  let out := s.Load b opts
  match out.err with
  | some e => (0, some e, m)
  | none => evolveLoop step out.events m 0

/-! ### Concrete fixtures used by witnesses and counterexamples -/

/-- A collaborator that acknowledges every publish with sequence 1. -/
def pubUnit : Unit → Msg → PubOpts → Unit × Except GoErr PubAck :=
  fun _ _ _ => ((), .ok ⟨"ES", 1⟩)

/-- A collaborator that assigns consecutive sequence numbers, its state being
the last assigned sequence. -/
def pubCount : Nat → Msg → PubOpts → Nat × Except GoErr PubAck :=
  fun n _ _ => (n + 1, .ok ⟨"ES", n + 1⟩)

/-- A collaborator that rejects every publish with the given error. -/
def pubFail (e : GoErr) : Unit → Msg → PubOpts → Unit × Except GoErr PubAck :=
  fun _ _ _ => ((), .error e)

/-- A method-set in which no payload type implements the validator. -/
def noValidator : GoVal → Option (Option GoErr) := fun _ => none

/-- A store with no type registry. -/
def storeNoReg : EventStore := ⟨"orders", ⟨none, "nuid-1", 7, noValidator⟩⟩

def opInit : GoType := ⟨some fun _ => .ptr (.structVal "OrderPlaced" [])⟩

/-- A registry holding the single type `order-placed`, as `NewRegistry` builds
it from `opInit` with the default codec. -/
def demoReg : Registry :=
  { codec := jsonCodec
    types := insertA [] "order-placed" opInit
    rtypes :=
      insertA (insertA [] (RType.ptrTo (.structTy "OrderPlaced")) "order-placed")
        (RType.structTy "OrderPlaced") "order-placed" }

/-- A store configured with `demoReg`. -/
def storeReg : EventStore := ⟨"orders", ⟨some demoReg, "nuid-1", 7, noValidator⟩⟩

def evNoType : Event := ⟨"", 0, "", .bytes [1], [], "", 0⟩

def evUnreg : Event := ⟨"", 0, "", .ptr (.structVal "Unknown" []), [], "", 0⟩

/-! ### Claims -/

/-- C10: `Append` with an empty events slice reaches the final return with the
acknowledgement pointer never assigned and dereferences it (a panic), instead
of returning a sequence or an error. -/
theorem append_empty_batch_panics {σ : Type}
    (pub : σ → Msg → PubOpts → σ × Except GoErr PubAck) (st : σ)
    (s : EventStore) (subject : String) (opts : List AppendOption)
    (o : appendOpts) (h : applyAppendOpts opts { expSeq := none } = .ok o) :
    (s.Append pub st subject [] opts).2.2 = .nilAckPanic := by
  unfold EventStore.Append
  rw [h]
  rfl

/-- Witness for C10 at a concrete store, collaborator and option list. -/
theorem append_empty_batch_panics_witness :
    (storeNoReg.Append pubUnit () "orders.1" [] [ExpectSequence 3]).2.2 =
      .nilAckPanic :=
  append_empty_batch_panics pubUnit () storeNoReg "orders.1"
    [ExpectSequence 3] ⟨some 3⟩ rfl

/-- C1 (code bug): when the subject's latest stored sequence is `L > 0` and
`afterSequence = A ≥ L`, `Load` returns an empty list and lastSequence `0`
(not `L` as the specification states), without opening a subscription. -/
theorem load_nothing_new_returns_zero (s : EventStore) (b : LoadBroker)
    (L A : Nat) (hL : b.lastMsg = .ok L) (hpos : 0 < L) (hle : L ≤ A) :
    s.Load b [AfterSequence A] = ⟨[], 0, none, false⟩ := by
  obtain ⟨lm, se, ms⟩ := b
  simp only at hL
  subst hL
  simp only [EventStore.Load, applyLoadOpts, AfterSequence]
  rw [if_neg (Nat.pos_iff_ne_zero.mp hpos), if_pos hle]

/-- Witness for C1: latest sequence 4, `afterSequence` 4. -/
theorem load_nothing_new_returns_zero_witness :
    storeNoReg.Load ⟨.ok 4, none, []⟩ [AfterSequence 4] = ⟨[], 0, none, false⟩ :=
  load_nothing_new_returns_zero storeNoReg ⟨.ok 4, none, []⟩ 4 4 rfl
    (by decide) (by decide)

/-- C3 (code bug): with no registry and an empty explicit type, `Append`
fails before any publish with the inline error "event type is not defined",
which is not the exported `ErrEventTypeRequired` sentinel; with a registry
and an unregistered payload shape it fails before any publish with the
`NoRegisteredType` condition. -/
theorem append_missing_type_no_publish :
    storeNoReg.Append pubUnit () "orders.1" [evNoType] [] =
      ((), [], .err (.plain "event type is not defined")) ∧
    GoErr.plain "event type is not defined" ≠ GoErr.eventTypeRequired ∧
    storeReg.Append pubUnit () "orders.1" [evUnreg] [] =
      ((), [], .err (.noTypeForStruct "*Unknown")) :=
  ⟨rfl, by decide, rfl⟩

/-! ### Helper lemmas -/

lemma strData_append (s t : String) : (s ++ t).data = s.data ++ t.data := by
  cases s; cases t; rfl

lemma mem_of_getLastQ {α : Type} : ∀ (l : List α) (a : α),
    l.getLast? = some a → a ∈ l := by
  intro l
  induction l with
  | nil => intro a h; cases h
  | cons x t ih =>
    intro a h
    cases t with
    | nil =>
      simp [List.getLast?] at h
      subst h
      exact List.mem_singleton_self x
    | cons y u =>
      rw [List.getLast?_cons_cons] at h
      exact List.mem_cons_of_mem x (ih a h)

/-- The loop of `Append` keeps an invariant: it only continues past a publish
whose response was an acknowledgement, so if the final trace ends in an
errored publish, the loop stopped there and returned the translated error. -/
lemma appendLoop_translate {σ : Type}
    (pub : σ → Msg → PubOpts → σ × Except GoErr PubAck)
    (s : EventStore) (subject : String) (expSeq : Option Nat) :
    ∀ (events : List Event) (st : σ) (first : Bool) (ack : Option PubAck)
      (tr : List PubCall),
      (∀ cc ∈ tr, ∃ a, cc.resp = .ok a) →
      ∀ {c : PubCall} {e : GoErr},
      (appendLoop pub s subject expSeq events st first ack tr).2.1.getLast? =
        some c →
      c.resp = .error e →
      (appendLoop pub s subject expSeq events st first ack tr).2.2 =
        .err (if strContains (errText e) "wrong last sequence" then
                .seqConflict else e) := by
  intro events
  induction events with
  | nil =>
    intro st first ack tr hinv c e hlast herr
    have htr : (appendLoop pub s subject expSeq [] st first ack tr).2.1 = tr := by
      cases ack <;> rfl
    rw [htr] at hlast
    obtain ⟨a, ha⟩ := hinv c (mem_of_getLastQ tr c hlast)
    rw [herr] at ha
    cases ha
  | cons ev rest ih =>
    intro st first ack tr hinv c e hlast herr
    cases hw : s.wrapEvent ev with
    | error e' =>
      have heq : appendLoop pub s subject expSeq (ev :: rest) st first ack tr =
          (st, tr, .err e') := by
        simp [appendLoop, hw]
      rw [heq] at hlast
      obtain ⟨a, ha⟩ := hinv c (mem_of_getLastQ tr c hlast)
      rw [herr] at ha
      cases ha
    | ok w =>
      cases hm : s.packEvent subject w with
      | error e' =>
        have heq : appendLoop pub s subject expSeq (ev :: rest) st first ack tr =
            (st, tr, .err e') := by
          simp [appendLoop, hw, hm]
        rw [heq] at hlast
        obtain ⟨a, ha⟩ := hinv c (mem_of_getLastQ tr c hlast)
        rw [herr] at ha
        cases ha
      | ok msg =>
        cases hp : (pub st msg
            { expectStream := some s.name
              expectLastSeqPerSubject := if first then expSeq else none }).2 with
        | error e2 =>
          have heq : appendLoop pub s subject expSeq (ev :: rest) st first ack tr =
              ((pub st msg
                 { expectStream := some s.name
                   expectLastSeqPerSubject := if first then expSeq else none }).1,
               tr ++ [⟨msg,
                 { expectStream := some s.name
                   expectLastSeqPerSubject := if first then expSeq else none },
                 .error e2⟩],
               if strContains (errText e2) "wrong last sequence" then
                 .err .seqConflict else .err e2) := by
            simp only [appendLoop, hw, hm, hp]
            by_cases hc : strContains (errText e2) "wrong last sequence" <;>
              simp [hc]
          rw [heq] at hlast ⊢
          rw [List.getLast?_concat] at hlast
          injection hlast with hcEq
          rw [← hcEq] at herr
          injection herr with he2
          subst he2
          by_cases hc : strContains (errText e2) "wrong last sequence" <;>
            simp [hc]
        | ok a =>
          have heq : appendLoop pub s subject expSeq (ev :: rest) st first ack tr =
              appendLoop pub s subject expSeq rest
                (pub st msg
                  { expectStream := some s.name
                    expectLastSeqPerSubject := if first then expSeq else none }).1
                false (some a)
                (tr ++ [⟨msg,
                  { expectStream := some s.name
                    expectLastSeqPerSubject := if first then expSeq else none },
                  .ok a⟩]) := by
            simp [appendLoop, hw, hm, hp]
          rw [heq] at hlast ⊢
          refine ih _ false (some a) _ ?_ hlast herr
          intro cc hcc
          rcases List.mem_append.mp hcc with h1 | h2
          · exact hinv cc h1
          · rw [List.mem_singleton.mp h2]
            exact ⟨a, rfl⟩

def evGood : Event := ⟨"", 0, "t1", .bytes [1], [], "", 0⟩

def conflictErr : GoErr := .plain "nats: wrong last sequence: 4"

def otherErr : GoErr := .plain "nats: timeout"

def valErr : GoErr := .plain "order id is required"

def evBad : Event := ⟨"", 0, "t2", .bytes [9], [], "", 0⟩

/-- A store whose method set implements the validator exactly on the payload
`bytes [9]`, where validation fails with `valErr`. -/
def valStore : EventStore :=
  ⟨"orders",
   ⟨none, "nuid-1", 7,
    fun v => if v = GoVal.bytes [9] then some (some valErr) else none⟩⟩

/-- C4: when a publish fails, `Append` returns `ErrSequenceConflict` exactly
when the collaborator's error text contains "wrong last sequence", and
returns every other publish error unchanged. -/
theorem append_publish_error_translation {σ : Type}
    (pub : σ → Msg → PubOpts → σ × Except GoErr PubAck) (st : σ)
    (s : EventStore) (subject : String) (events : List Event)
    (opts : List AppendOption) {c : PubCall} {e : GoErr}
    (hlast : (s.Append pub st subject events opts).2.1.getLast? = some c)
    (herr : c.resp = .error e) :
    (s.Append pub st subject events opts).2.2 =
      .err (if strContains (errText e) "wrong last sequence" then .seqConflict
            else e) := by
  unfold EventStore.Append at hlast ⊢
  cases ho : applyAppendOpts opts { expSeq := none } with
  | error e' =>
    rw [ho] at hlast
    exact Option.noConfusion hlast
  | ok o =>
    rw [ho] at hlast
    exact appendLoop_translate pub s subject o.expSeq events st true none []
      (by intro cc hcc; cases hcc) hlast herr

/-- Witness for C4: a conflict-text error becomes `seqConflict`; a timeout
error is returned unchanged. -/
theorem append_publish_error_translation_witness :
    (storeNoReg.Append (pubFail conflictErr) () "orders.1" [evGood] []).2.2 =
      .err .seqConflict ∧
    (storeNoReg.Append (pubFail otherErr) () "orders.1" [evGood] []).2.2 =
      .err otherErr := by
  constructor
  · have h := append_publish_error_translation (pubFail conflictErr) ()
      storeNoReg "orders.1" [evGood] [] rfl rfl
    rw [h]
    decide
  · have h := append_publish_error_translation (pubFail otherErr) ()
      storeNoReg "orders.1" [evGood] [] rfl rfl
    rw [h]
    decide

/-- C2 counterexample: in the batch `[evGood, evBad]` the second event fails
its payload validation, yet the first event has already been published (one
network call was made), contradicting "no event of the batch has been
published". -/
theorem append_validation_counterexample :
    (valStore.Append pubCount 0 "orders.1" [evGood, evBad] []).2.2 =
      .err valErr ∧
    (valStore.Append pubCount 0 "orders.1" [evGood, evBad] []).2.1.length = 1 :=
  ⟨rfl, rfl⟩

/-- The loop of `Append` publishes each preceding event before reaching the
event whose payload validation fails, then aborts with the raw validation
error. -/
lemma appendLoop_validation {σ : Type}
    (pub : σ → Msg → PubOpts → σ × Except GoErr PubAck)
    (s : EventStore) (subject : String) (expSeq : Option Nat)
    (bad bad' : Event) (err : GoErr) (rest : List Event)
    (hres : resolveType s bad = .ok bad')
    (hval : s.rt.validatorImpl bad'.data = some (some err))
    (hpub : ∀ (st' : σ) m po, ∃ a, (pub st' m po).2 = .ok a) :
    ∀ (pre : List Event) (st : σ) (first : Bool) (ack : Option PubAck)
      (tr : List PubCall),
      (∀ ev ∈ pre, ∃ w m, s.wrapEvent ev = .ok w ∧
        s.packEvent subject w = .ok m) →
      ∃ stF trF,
        appendLoop pub s subject expSeq (pre ++ bad :: rest) st first ack tr =
          (stF, trF, .err err) ∧ trF.length = tr.length + pre.length := by
  have hwbad : s.wrapEvent bad = .error err := by
    have h1 : s.wrapEvent bad = finishWrap s bad' := by
      unfold EventStore.wrapEvent
      rw [hres]
    rw [h1]
    unfold finishWrap
    rw [hval]
  intro pre
  induction pre with
  | nil =>
    intro st first ack tr _
    refine ⟨st, tr, ?_, by simp⟩
    simp [appendLoop, hwbad]
  | cons ev pre' ih =>
    intro st first ack tr hpre
    obtain ⟨w, m, hw, hm⟩ := hpre ev (List.mem_cons_self ev pre')
    obtain ⟨a, ha⟩ := hpub st m
      { expectStream := some s.name
        expectLastSeqPerSubject := if first then expSeq else none }
    have heq : appendLoop pub s subject expSeq
        ((ev :: pre') ++ bad :: rest) st first ack tr =
        appendLoop pub s subject expSeq (pre' ++ bad :: rest)
          (pub st m
            { expectStream := some s.name
              expectLastSeqPerSubject := if first then expSeq else none }).1
          false (some a)
          (tr ++ [⟨m,
            { expectStream := some s.name
              expectLastSeqPerSubject := if first then expSeq else none },
            .ok a⟩]) := by
      simp [appendLoop, hw, hm, ha]
    obtain ⟨stF, trF, h1, h2⟩ := ih
      (pub st m
        { expectStream := some s.name
          expectLastSeqPerSubject := if first then expSeq else none }).1
      false (some a)
      (tr ++ [⟨m,
        { expectStream := some s.name
          expectLastSeqPerSubject := if first then expSeq else none },
        .ok a⟩])
      (fun e2 he2 => hpre e2 (List.mem_cons_of_mem ev he2))
    refine ⟨stF, trF, heq.trans h1, ?_⟩
    rw [h2]
    simp [List.length_append]
    omega

/-- C2 (amended): a payload validation failure aborts `Append` with the
validator's error surfaced unwrapped, before the failing event (or any later
event) is published; the events preceding the failing one have each already
been published, so the trace holds exactly one publish per preceding event. -/
theorem append_validation_abort {σ : Type}
    (pub : σ → Msg → PubOpts → σ × Except GoErr PubAck) (st : σ)
    (s : EventStore) (subject : String)
    (pre : List Event) (bad : Event) (rest : List Event)
    (opts : List AppendOption) {o : appendOpts} {bad' : Event} {err : GoErr}
    (ho : applyAppendOpts opts { expSeq := none } = .ok o)
    (hres : resolveType s bad = .ok bad')
    (hval : s.rt.validatorImpl bad'.data = some (some err))
    (hpub : ∀ (st' : σ) m po, ∃ a, (pub st' m po).2 = .ok a)
    (hpre : ∀ ev ∈ pre, ∃ w m, s.wrapEvent ev = .ok w ∧
      s.packEvent subject w = .ok m) :
    ∃ stF trF,
      s.Append pub st subject (pre ++ bad :: rest) opts =
        (stF, trF, .err err) ∧ trF.length = pre.length := by
  unfold EventStore.Append
  rw [ho]
  obtain ⟨stF, trF, h1, h2⟩ := appendLoop_validation pub s subject o.expSeq
    bad bad' err rest hres hval hpub pre st true none [] hpre
  exact ⟨stF, trF, h1, by simpa using h2⟩

/-- Witness for C2: one preceding event is published, then the validation of
the second event aborts the call with the raw validation error. -/
theorem append_validation_abort_witness :
    ∃ stF trF,
      valStore.Append pubCount 0 "orders.1" ([evGood] ++ evBad :: []) [] =
        (stF, trF, .err valErr) ∧ trF.length = [evGood].length :=
  append_validation_abort pubCount 0 valStore "orders.1" [evGood] evBad [] []
    rfl rfl rfl (fun st' _ _ => ⟨⟨"ES", st' + 1⟩, rfl⟩)
    (by
      intro ev he
      rw [List.mem_singleton.mp he]
      exact ⟨_, _, rfl, rfl⟩)

/-- C6: for a value of a registered shape, the registry marshal followed by
registry unmarshal into a fresh target of the same shape reconstructs the
value, whenever the configured codec itself round-trips it; the registry
layer only adds the registration checks and otherwise delegates. -/
theorem registry_marshal_roundtrip (r : Registry) (v v0 : GoVal) (n : String)
    (b : Wire)
    (hreg : r.Lookup v = .ok n)
    (hm : r.codec.marshal v = .ok b)
    (hu : r.codec.unmarshal b v0 = .ok v)
    (ht : typeOf v0 = typeOf v) :
    r.Marshal v = .ok b ∧ r.Unmarshal b v0 = .ok v := by
  have hreg0 : r.Lookup v0 = .ok n := by
    unfold Registry.Lookup at hreg ⊢
    rw [ht]
    exact hreg
  constructor
  · simp [Registry.Marshal, hreg, hm]
  · simp [Registry.Unmarshal, hreg0, hu]

/-- Witness for C6: a populated `OrderPlaced` value round-trips through
`demoReg` with its JSON-contract codec. -/
theorem registry_marshal_roundtrip_witness :
    demoReg.Marshal (.ptr (.structVal "OrderPlaced" [("ID", "123")])) =
      .ok (.enc (.structVal "OrderPlaced" [("ID", "123")])) ∧
    demoReg.Unmarshal (.enc (.structVal "OrderPlaced" [("ID", "123")]))
      (.ptr (.structVal "OrderPlaced" [])) =
      .ok (.ptr (.structVal "OrderPlaced" [("ID", "123")])) :=
  registry_marshal_roundtrip demoReg _ _ "order-placed" _ rfl rfl rfl rfl

lemma getLastQ_cons_isSome {α : Type} :
    ∀ (x : α) (l : List α), ∃ z, (x :: l).getLast? = some z := by
  intro x l
  induction l generalizing x with
  | nil => exact ⟨x, rfl⟩
  | cons y u ih =>
    obtain ⟨z, hz⟩ := ih y
    exact ⟨z, by rw [List.getLast?_cons_cons]; exact hz⟩

/-- A default event (used only as the out-of-range default of `List.getD` in
statements whose indices are in range). -/
def devent : Event := ⟨"", 0, "", .nil, [], "", 0⟩

/-- The index of the first event on which the fold fails, with the fold
error, threading the evolving model; `none` when every fold succeeds. -/
def firstFail {M : Type} (step : M → Event → Except GoErr M) :
    List Event → M → Option (Nat × GoErr)
  | [], _ => none
  | e :: rest, m =>
    match step m e with
    | .error err => some (0, err)
    | .ok m' =>
      match firstFail step rest m' with
      | some ke => some (ke.1 + 1, ke.2)
      | none => none

/-- The fold loop of `Evolve` returns the sequence of the event just before
the first failure (the accumulator if the first event fails) together with
the fold error, and the last event's sequence on full success. -/
lemma evolveLoop_char {M : Type} (step : M → Event → Except GoErr M) :
    ∀ (es : List Event) (m : M) (acc : Nat),
      (evolveLoop step es m acc).1 =
        (match firstFail step es m with
         | some ke =>
           if ke.1 = 0 then acc else (es.getD (ke.1 - 1) devent).sequence
         | none =>
           match es.getLast? with
           | some e => e.sequence
           | none => acc) ∧
      (evolveLoop step es m acc).2.1 =
        (match firstFail step es m with
         | some ke => some ke.2
         | none => none) := by
  intro es
  induction es with
  | nil => intro m acc; exact ⟨rfl, rfl⟩
  | cons e rest ih =>
    intro m acc
    cases hs : step m e with
    | error err =>
      constructor <;> simp [evolveLoop, firstFail, hs]
    | ok m' =>
      have heq : evolveLoop step (e :: rest) m acc =
          evolveLoop step rest m' e.sequence := by
        simp [evolveLoop, hs]
      have hff : firstFail step (e :: rest) m =
          (match firstFail step rest m' with
           | some ke => some (ke.1 + 1, ke.2)
           | none => none) := by
        simp [firstFail, hs]
      obtain ⟨ih1, ih2⟩ := ih m' e.sequence
      cases hf : firstFail step rest m' with
      | none =>
        rw [hf] at ih1 ih2
        constructor
        · rw [heq, hff, hf, ih1]
          cases rest with
          | nil => rfl
          | cons y u =>
            obtain ⟨z, hz⟩ := getLastQ_cons_isSome y u
            rw [List.getLast?_cons_cons, hz]
        · rw [heq, hff, hf, ih2]
      | some ke =>
        obtain ⟨k1, er⟩ := ke
        rw [hf] at ih1 ih2
        constructor
        · rw [heq, hff, hf, ih1]
          cases k1 with
          | zero => simp [List.getD_cons_zero]
          | succ j => simp [List.getD_cons_succ]
        · rw [heq, hff, hf, ih2]

/-- C8: for the event list `Load` returns, `Evolve` folds each event into the
projection; if the fold fails on the k-th event it returns the sequence of
event k-1 (0 when the first event fails) together with the fold error, and
the sequence of the last event when every fold succeeds. -/
theorem evolve_partial_progress {M : Type} (s : EventStore) (b : LoadBroker)
    (step : M → Event → Except GoErr M) (m : M) (opts : List LoadOption)
    {es : List Event} {L : Nat} {so : Bool}
    (hload : s.Load b opts = ⟨es, L, none, so⟩) :
    (s.Evolve b step m opts).1 =
      (match firstFail step es m with
       | some ke =>
         if ke.1 = 0 then 0 else (es.getD (ke.1 - 1) devent).sequence
       | none =>
         match es.getLast? with
         | some e => e.sequence
         | none => 0) ∧
    (s.Evolve b step m opts).2.1 =
      (match firstFail step es m with
       | some ke => some ke.2
       | none => none) := by
  unfold EventStore.Evolve
  rw [hload]
  exact evolveLoop_char step es m 0

def evW1 : Event := ⟨"id1", 5, "t1", .bytes [1], [], "orders.1", 1⟩

def evW2 : Event := ⟨"id2", 6, "t2", .bytes [2], [], "orders.1", 2⟩

def msg1 : Msg :=
  ⟨"orders.1", .raw [1],
   [(natsMsgIdHdr, "id1"), (eventTypeHdr, "t1"), (eventTimeHdr, "5"),
    (eventCodecHdr, "binary")], 1⟩

def msg2 : Msg :=
  ⟨"orders.1", .raw [2],
   [(natsMsgIdHdr, "id2"), (eventTypeHdr, "t2"), (eventTimeHdr, "6"),
    (eventCodecHdr, "binary")], 2⟩

/-- A broker snapshot holding two stored messages, latest sequence 2. -/
def brokerTwo : LoadBroker := ⟨.ok 2, none, [msg1, msg2]⟩

/-- A fold that fails (with "boom") exactly on the event at sequence 2. -/
def stepBoom : Nat → Event → Except GoErr Nat := fun n e =>
  if e.sequence = 2 then .error (.plain "boom") else .ok (n + 1)

/-- Witness for C8: the second of two loaded events fails the fold, and
`Evolve` reports the first event's sequence together with the fold error. -/
theorem evolve_partial_progress_witness :
    (storeNoReg.Evolve brokerTwo stepBoom (0 : Nat) []).1 = 1 ∧
    (storeNoReg.Evolve brokerTwo stepBoom (0 : Nat) []).2.1 =
      some (.plain "boom") := by
  obtain ⟨h1, h2⟩ := @evolve_partial_progress Nat storeNoReg brokerTwo
    stepBoom 0 [] [evW1, evW2] 2 true (by decide)
  refine ⟨?_, ?_⟩
  · rw [h1]; rfl
  · rw [h2]; rfl


lemma lookupA_eraseKey_ne {α β : Type} [DecidableEq α]
    (l : List (α × β)) (k k' : α) (h : k ≠ k') :
    lookupA (eraseKey l k') k = lookupA l k := by
  induction l with
  | nil => rfl
  | cons p t ih =>
    by_cases hp : p.1 = k'
    · rw [show eraseKey (p :: t) k' = eraseKey t k' from by
        simp [eraseKey, hp]]
      rw [ih]
      have hk : ¬ p.1 = k := by rw [hp]; exact fun hh => h hh.symm
      rw [show lookupA (p :: t) k = lookupA t k from by
        cases p; simp [lookupA, hk]]
    · rw [show eraseKey (p :: t) k' = p :: eraseKey t k' from by
        simp [eraseKey, hp]]
      by_cases hk : p.1 = k
      · cases p
        simp only at hk
        rw [hk]
        simp [lookupA]
      · cases p
        simp only at hk
        simp [lookupA, hk, ih]

lemma lookupA_insertA_self {α β : Type} [DecidableEq α]
    (l : List (α × β)) (k : α) (v : β) :
    lookupA (insertA l k v) k = some v := by
  simp [insertA, lookupA]

lemma lookupA_insertA_ne {α β : Type} [DecidableEq α]
    (l : List (α × β)) (k k' : α) (v : β) (h : k ≠ k') :
    lookupA (insertA l k' v) k = lookupA l k := by
  rw [show lookupA (insertA l k' v) k =
      (if k' = k then some v else lookupA (eraseKey l k') k) from rfl]
  rw [if_neg (fun hh => h hh.symm)]
  exact lookupA_eraseKey_ne l k k' h

lemma metaKey_ne_msgId (k : String) :
    eventMetaPrefixHdr ++ k ≠ natsMsgIdHdr := by
  intro h
  have hd := congrArg String.data h
  rw [strData_append] at hd
  have h1 : (eventMetaPrefixHdr.data ++ k.data).head? = some 'r' := by
    have h0 : eventMetaPrefixHdr.data = 'r' :: "ita-meta-".data := by decide
    rw [h0]
    rfl
  rw [hd] at h1
  exact absurd h1 (by decide)

lemma lookup_foldl_meta_msgId :
    ∀ (metas : List (String × String)) (hs : List (String × String)),
      lookupA
        (metas.foldl
          (fun hs kv => insertA hs (eventMetaPrefixHdr ++ kv.1) kv.2) hs)
        natsMsgIdHdr = lookupA hs natsMsgIdHdr := by
  intro metas
  induction metas with
  | nil => intro hs; rfl
  | cons kv t ih =>
    intro hs
    rw [List.foldl_cons, ih]
    exact lookupA_insertA_ne _ _ _ _
      (fun hh : natsMsgIdHdr = eventMetaPrefixHdr ++ kv.1 =>
        metaKey_ne_msgId kv.1 hh.symm)

/-- The idempotency-key header of a packed message is the event's identity:
the envelope headers bind `Nats-Msg-Id` to it and the metadata entries,
written under the meta prefix, cannot shadow it. -/
lemma packEvent_msgId (s : EventStore) (subject : String) (ev : Event)
    {msg : Msg} (h : s.packEvent subject ev = .ok msg) :
    hdrGet msg.headers natsMsgIdHdr = ev.id := by
  unfold EventStore.packEvent at h
  cases henc : encodePayload s ev with
  | error e =>
    rw [henc] at h
    exact Except.noConfusion h
  | ok bc =>
    rw [henc] at h
    injection h with h'
    rw [← h']
    unfold hdrGet
    rw [lookup_foldl_meta_msgId]
    rw [lookupA_insertA_ne _ _ _ _ (by decide),
        lookupA_insertA_ne _ _ _ _ (by decide),
        lookupA_insertA_ne _ _ _ _ (by decide),
        lookupA_insertA_self]
    rfl

/-- Characterisation of a successful run of the loop of `Append`: one publish
per event, the expected-sequence precondition only on the very first publish,
each publish carrying the wrapped event's identity as its idempotency key,
and the returned sequence taken from the last acknowledgement. -/
lemma appendLoop_ok_char {σ : Type}
    (pub : σ → Msg → PubOpts → σ × Except GoErr PubAck)
    (s : EventStore) (subject : String) (expSeq : Option Nat) :
    ∀ (events : List Event) (st : σ) (first : Bool) (ack : Option PubAck)
      (tr : List PubCall) {stF : σ} {trF : List PubCall} {sq : Nat},
      appendLoop pub s subject expSeq events st first ack tr =
        (stF, trF, .ok sq) →
      ∃ nc : List PubCall,
        trF = tr ++ nc ∧
        nc.length = events.length ∧
        (∀ i (hi : i < nc.length),
          (nc.get ⟨i, hi⟩).opts.expectLastSeqPerSubject =
            (if first ∧ i = 0 then expSeq else none) ∧
          (nc.get ⟨i, hi⟩).opts.expectStream = some s.name) ∧
        (∀ i (hi : i < events.length) (hi' : i < nc.length),
          ∃ w, s.wrapEvent (events.get ⟨i, hi⟩) = .ok w ∧
            hdrGet (nc.get ⟨i, hi'⟩).msg.headers natsMsgIdHdr = w.id) ∧
        (match nc.getLast? with
         | some c => ∃ a, c.resp = .ok a ∧ sq = a.sequence
         | none => ∃ a, ack = some a ∧ sq = a.sequence) := by
  intro events
  induction events with
  | nil =>
    intro st first ack tr stF trF sq h
    cases ack with
    | none =>
      have h' : ((st, tr, .nilAckPanic) : σ × List PubCall × AppendRes) =
          (stF, trF, .ok sq) := h
      injection h' with h1 h2
      injection h2 with h3 h4
      exact AppendRes.noConfusion h4
    | some a =>
      have h' : ((st, tr, .ok a.sequence) : σ × List PubCall × AppendRes) =
          (stF, trF, .ok sq) := h
      injection h' with h1 h2
      injection h2 with h3 h4
      injection h4 with h5
      refine ⟨[], by rw [← h3]; simp, rfl, ?_, ?_, ⟨a, rfl, h5.symm⟩⟩
      · intro i hi; cases hi
      · intro i hi hi'; cases hi
  | cons ev rest ih =>
    intro st first ack tr stF trF sq h
    cases hw : s.wrapEvent ev with
    | error e =>
      rw [show appendLoop pub s subject expSeq (ev :: rest) st first ack tr =
          (st, tr, .err e) from by simp [appendLoop, hw]] at h
      injection h with h1 h2
      injection h2 with h3 h4
      exact AppendRes.noConfusion h4
    | ok w =>
      cases hm : s.packEvent subject w with
      | error e =>
        rw [show appendLoop pub s subject expSeq (ev :: rest) st first ack tr =
            (st, tr, .err e) from by simp [appendLoop, hw, hm]] at h
        injection h with h1 h2
        injection h2 with h3 h4
        exact AppendRes.noConfusion h4
      | ok msg =>
        cases hp : (pub st msg
            { expectStream := some s.name
              expectLastSeqPerSubject := if first then expSeq else none }).2 with
        | error e2 =>
          rw [show appendLoop pub s subject expSeq (ev :: rest) st first ack tr =
              ((pub st msg
                { expectStream := some s.name
                  expectLastSeqPerSubject := if first then expSeq else none }).1,
               tr ++ [⟨msg,
                 { expectStream := some s.name
                   expectLastSeqPerSubject := if first then expSeq else none },
                 .error e2⟩],
               if strContains (errText e2) "wrong last sequence" then
                 .err .seqConflict else .err e2) from by
            simp only [appendLoop, hw, hm, hp]
            by_cases hc : strContains (errText e2) "wrong last sequence" <;>
              simp [hc]] at h
          injection h with h1 h2
          injection h2 with h3 h4
          by_cases hc : strContains (errText e2) "wrong last sequence"
          · rw [if_pos hc] at h4; exact AppendRes.noConfusion h4
          · rw [if_neg hc] at h4; exact AppendRes.noConfusion h4
        | ok a =>
          rw [show appendLoop pub s subject expSeq (ev :: rest) st first ack tr =
              appendLoop pub s subject expSeq rest
                (pub st msg
                  { expectStream := some s.name
                    expectLastSeqPerSubject := if first then expSeq else none }).1
                false (some a)
                (tr ++ [⟨msg,
                  { expectStream := some s.name
                    expectLastSeqPerSubject := if first then expSeq else none },
                  .ok a⟩]) from by simp [appendLoop, hw, hm, hp]] at h
          obtain ⟨nc', hTr, hLen, hOpts, hIds, hLast⟩ := ih _ false (some a) _ h
          refine ⟨⟨msg,
            { expectStream := some s.name
              expectLastSeqPerSubject := if first then expSeq else none },
            .ok a⟩ :: nc', ?_, by simp [hLen], ?_, ?_, ?_⟩
          · rw [hTr]; simp
          · intro i hi
            cases i with
            | zero =>
              refine ⟨?_, rfl⟩
              simp only [List.get]
              cases first <;> simp
            | succ j =>
              have hj : j < nc'.length := by
                simpa using Nat.lt_of_succ_lt_succ hi
              have hrec := hOpts j hj
              simpa using hrec
          · intro i hi hi'
            cases i with
            | zero =>
              exact ⟨w, hw, packEvent_msgId s subject w hm⟩
            | succ j =>
              have hj : j < rest.length := by
                simpa using Nat.lt_of_succ_lt_succ hi
              have hj' : j < nc'.length := by
                simpa using Nat.lt_of_succ_lt_succ hi'
              have hrec := hIds j hj hj'
              simpa using hrec
          · cases hnc : nc' with
            | nil =>
              rw [hnc] at hLast
              obtain ⟨a2, ha2, hsq⟩ := hLast
              injection ha2 with ha2
              exact ⟨a, rfl, by rw [hsq, ← ha2]⟩
            | cons y u =>
              rw [hnc] at hLast
              rw [List.getLast?_cons_cons]
              exact hLast

/-- C9: on a successful `Append` with an expected-sequence option, exactly one
publish is made per event, the expected-prior-sequence precondition is
attached only to the first publish of the batch, each publish carries the
wrapped event's identity as idempotency key, and the returned sequence is the
one the collaborator assigned to the last event. -/
theorem append_first_event_precondition {σ : Type}
    (pub : σ → Msg → PubOpts → σ × Except GoErr PubAck) (st : σ)
    (s : EventStore) (subject : String) (events : List Event) (E : Nat)
    {sq : Nat}
    (hok : (s.Append pub st subject events [ExpectSequence E]).2.2 = .ok sq) :
    (s.Append pub st subject events [ExpectSequence E]).2.1.length =
      events.length ∧
    (∀ i (hi : i <
        (s.Append pub st subject events [ExpectSequence E]).2.1.length),
      ((s.Append pub st subject events
        [ExpectSequence E]).2.1.get ⟨i, hi⟩).opts.expectLastSeqPerSubject =
          if i = 0 then some E else none) ∧
    (∀ i (hi : i < events.length)
       (hi' : i <
         (s.Append pub st subject events [ExpectSequence E]).2.1.length),
      ∃ w, s.wrapEvent (events.get ⟨i, hi⟩) = .ok w ∧
        hdrGet ((s.Append pub st subject events
          [ExpectSequence E]).2.1.get ⟨i, hi'⟩).msg.headers natsMsgIdHdr =
            w.id) ∧
    (∃ c, (s.Append pub st subject events
        [ExpectSequence E]).2.1.getLast? = some c ∧
      ∃ a, c.resp = .ok a ∧ sq = a.sequence) := by
  have h : appendLoop pub s subject (some E) events st true none [] =
      ((s.Append pub st subject events [ExpectSequence E]).1,
       (s.Append pub st subject events [ExpectSequence E]).2.1, .ok sq) := by
    rw [← hok]
    rfl
  obtain ⟨nc, hTr, hLen, hOpts, hIds, hLast⟩ :=
    appendLoop_ok_char pub s subject (some E) events st true none [] h
  have hTr' : (s.Append pub st subject events [ExpectSequence E]).2.1 = nc := by
    simpa using hTr
  rw [hTr']
  refine ⟨hLen, ?_, ?_, ?_⟩
  · intro i hi
    have h2 := (hOpts i hi).1
    simpa using h2
  · intro i hi hi'
    exact hIds i hi hi'
  · cases hgl : nc.getLast? with
    | some c =>
      rw [hgl] at hLast
      exact ⟨c, rfl, hLast⟩
    | none =>
      rw [hgl] at hLast
      obtain ⟨a, ha, _⟩ := hLast
      exact absurd ha (by simp)

def evGood2 : Event := ⟨"wid-7", 3, "t1", .bytes [2], [], "", 0⟩

/-- Witness for C9 on a two-event batch with expected sequence 5. -/
theorem append_first_event_precondition_witness :
    (storeNoReg.Append pubCount 0 "orders.1" [evGood, evGood2]
      [ExpectSequence 5]).2.1.length = ([evGood, evGood2] : List Event).length ∧
    (∀ i (hi : i < (storeNoReg.Append pubCount 0 "orders.1" [evGood, evGood2]
        [ExpectSequence 5]).2.1.length),
      ((storeNoReg.Append pubCount 0 "orders.1" [evGood, evGood2]
        [ExpectSequence 5]).2.1.get ⟨i, hi⟩).opts.expectLastSeqPerSubject =
          if i = 0 then some 5 else none) ∧
    (∀ i (hi : i < ([evGood, evGood2] : List Event).length)
       (hi' : i < (storeNoReg.Append pubCount 0 "orders.1" [evGood, evGood2]
         [ExpectSequence 5]).2.1.length),
      ∃ w, storeNoReg.wrapEvent (([evGood, evGood2] : List Event).get ⟨i, hi⟩) =
          .ok w ∧
        hdrGet ((storeNoReg.Append pubCount 0 "orders.1" [evGood, evGood2]
          [ExpectSequence 5]).2.1.get ⟨i, hi'⟩).msg.headers natsMsgIdHdr =
            w.id) ∧
    (∃ c, (storeNoReg.Append pubCount 0 "orders.1" [evGood, evGood2]
        [ExpectSequence 5]).2.1.getLast? = some c ∧
      ∃ a, c.resp = .ok a ∧ 2 = a.sequence) :=
  append_first_event_precondition pubCount 0 storeNoReg "orders.1"
    [evGood, evGood2] 5 rfl

/-- A successful validation pins the descriptor's shape: the factory is
non-nil and produces a non-nil pointer to a struct. -/
lemma validate_ok_shape (r : Registry) (n : String) (t : GoType)
    (h : r.validate n t = .ok ()) :
    ∃ f s', t.init = some f ∧ f () ≠ GoVal.nil ∧
      typeOf (f ()) = .ptrTo (.structTy s') := by
  unfold Registry.validate at h
  split at h
  · exact Except.noConfusion h
  split at h
  · exact Except.noConfusion h
  split at h
  · exact Except.noConfusion h
  rename_i f hi
  simp only [] at h
  split at h
  · exact Except.noConfusion h
  rename_i h3
  split at h
  rotate_left
  · exact Except.noConfusion h
  rename_i et hrt
  split at h
  rotate_left
  · exact Except.noConfusion h
  rename_i s' het
  exact ⟨f, het, hi, h3, hrt⟩

/-- `validate` reads the registry only through its codec. -/
lemma validate_codec_congr (r r' : Registry) (h : r.codec = r'.codec)
    (n : String) (t : GoType) : r.validate n t = r'.validate n t := by
  unfold Registry.validate
  rw [h]

lemma addType_codec (r : Registry) (n : String) (t : GoType) :
    (r.addType n t).codec = r.codec := by
  cases hi : t.init <;> simp [Registry.addType, hi]

lemma addType_eq (r : Registry) (n : String) (t : GoType)
    (f : Unit → GoVal) (h : t.init = some f) :
    r.addType n t =
      { r with
        types := insertA r.types n t
        rtypes :=
          insertA (insertA r.rtypes (typeOf (f ())) n)
            (typeOf (f ())).elem n } := by
  unfold Registry.addType
  rw [h]

lemma newRegistryLoop_err_of_invalid :
    ∀ (descs : List (String × GoType)) (r r0 : Registry),
      r.codec = r0.codec →
      (∃ p ∈ descs, ∃ e, r0.validate p.1 p.2 = .error e) →
      ∃ e', newRegistryLoop descs r = .error e' := by
  intro descs
  induction descs with
  | nil =>
    intro r r0 hc h
    obtain ⟨p, hp, _⟩ := h
    cases hp
  | cons q t ih =>
    intro r r0 hc h
    obtain ⟨p, hp, e, hpe⟩ := h
    obtain ⟨qn, qt⟩ := q
    cases hv : r.validate qn qt with
    | error e2 => exact ⟨e2, by simp [newRegistryLoop, hv]⟩
    | ok u =>
      cases u
      rw [show newRegistryLoop ((qn, qt) :: t) r =
          newRegistryLoop t (r.addType qn qt) from by
        simp [newRegistryLoop, hv]]
      rcases List.mem_cons.mp hp with hpq | hpt
      · exfalso
        rw [validate_codec_congr r r0 hc qn qt] at hv
        rw [hpq] at hpe
        rw [hv] at hpe
        exact Except.noConfusion hpe
      · exact ih (r.addType qn qt) r0
          (by rw [addType_codec]; exact hc) ⟨p, hpt, e, hpe⟩

lemma newRegistryLoop_ok_of_valid :
    ∀ (descs : List (String × GoType)) (r r0 : Registry),
      r.codec = r0.codec →
      (∀ p ∈ descs, r0.validate p.1 p.2 = .ok ()) →
      ∃ r', newRegistryLoop descs r = .ok r' := by
  intro descs
  induction descs with
  | nil => intro r r0 hc hall; exact ⟨r, rfl⟩
  | cons q t ih =>
    intro r r0 hc hall
    obtain ⟨qn, qt⟩ := q
    have hv : r.validate qn qt = .ok () := by
      rw [validate_codec_congr r r0 hc qn qt]
      exact hall (qn, qt) (List.mem_cons_self _ _)
    obtain ⟨r', hr'⟩ := ih (r.addType qn qt) r0
      (by rw [addType_codec]; exact hc)
      (fun p hp => hall p (List.mem_cons_of_mem _ hp))
    exact ⟨r', by rw [show newRegistryLoop ((qn, qt) :: t) r =
        newRegistryLoop t (r.addType qn qt) from by
      simp [newRegistryLoop, hv]]; exact hr'⟩

lemma newRegistryLoop_types_pres :
    ∀ (descs : List (String × GoType)) (r r' : Registry) (n : String),
      newRegistryLoop descs r = .ok r' →
      (∀ p ∈ descs, p.1 ≠ n) →
      lookupA r'.types n = lookupA r.types n := by
  intro descs
  induction descs with
  | nil =>
    intro r r' n h _
    injection h with h
    rw [h]
  | cons q t ih =>
    intro r r' n h hne
    obtain ⟨qn, qt⟩ := q
    cases hv : r.validate qn qt with
    | error e =>
      rw [show newRegistryLoop ((qn, qt) :: t) r = .error e from by
        simp [newRegistryLoop, hv]] at h
      exact Except.noConfusion h
    | ok u =>
      cases u
      rw [show newRegistryLoop ((qn, qt) :: t) r =
          newRegistryLoop t (r.addType qn qt) from by
        simp [newRegistryLoop, hv]] at h
      rw [ih (r.addType qn qt) r' n h
        (fun p hp => hne p (List.mem_cons_of_mem _ hp))]
      cases hqi : qt.init with
      | none => rw [show r.addType qn qt = r from by
          simp [Registry.addType, hqi]]
      | some f =>
        rw [addType_eq r qn qt f hqi]
        exact lookupA_insertA_ne _ _ _ _
          (fun hh => hne (qn, qt) (List.mem_cons_self _ _) hh.symm)

lemma lookupA_insertA_isSome {α β : Type} [DecidableEq α]
    (l : List (α × β)) (k k' : α) (v : β)
    (h : (lookupA l k).isSome) : (lookupA (insertA l k' v) k).isSome := by
  by_cases hk : k' = k
  · subst hk
    rw [lookupA_insertA_self]
    rfl
  · rw [lookupA_insertA_ne l k k' v (fun hh => hk hh.symm)]
    exact h

lemma newRegistryLoop_rtypes_isSome_pres :
    ∀ (descs : List (String × GoType)) (r r' : Registry) (K : RType),
      newRegistryLoop descs r = .ok r' →
      (lookupA r.rtypes K).isSome →
      (lookupA r'.rtypes K).isSome := by
  intro descs
  induction descs with
  | nil =>
    intro r r' K h hs
    injection h with h
    rw [← h]
    exact hs
  | cons q t ih =>
    intro r r' K h hs
    obtain ⟨qn, qt⟩ := q
    cases hv : r.validate qn qt with
    | error e =>
      rw [show newRegistryLoop ((qn, qt) :: t) r = .error e from by
        simp [newRegistryLoop, hv]] at h
      exact Except.noConfusion h
    | ok u =>
      cases u
      rw [show newRegistryLoop ((qn, qt) :: t) r =
          newRegistryLoop t (r.addType qn qt) from by
        simp [newRegistryLoop, hv]] at h
      refine ih (r.addType qn qt) r' K h ?_
      cases hqi : qt.init with
      | none =>
        rw [show r.addType qn qt = r from by simp [Registry.addType, hqi]]
        exact hs
      | some f =>
        rw [addType_eq r qn qt f hqi]
        exact lookupA_insertA_isSome _ _ _ _ (lookupA_insertA_isSome _ _ _ _ hs)

lemma newRegistryLoop_binds :
    ∀ (descs : List (String × GoType)) (r r' : Registry),
      newRegistryLoop descs r = .ok r' →
      (descs.map Prod.fst).Nodup →
      ∀ p ∈ descs, lookupA r'.types p.1 = some p.2 := by
  intro descs
  induction descs with
  | nil => intro r r' _ _ p hp; cases hp
  | cons q t ih =>
    intro r r' h hnd p hp
    obtain ⟨qn, qt⟩ := q
    cases hv : r.validate qn qt with
    | error e =>
      rw [show newRegistryLoop ((qn, qt) :: t) r = .error e from by
        simp [newRegistryLoop, hv]] at h
      exact Except.noConfusion h
    | ok u =>
      cases u
      rw [show newRegistryLoop ((qn, qt) :: t) r =
          newRegistryLoop t (r.addType qn qt) from by
        simp [newRegistryLoop, hv]] at h
      have hnd2 : qn ∉ t.map Prod.fst ∧ (t.map Prod.fst).Nodup := by
        rw [List.map_cons] at hnd
        exact List.nodup_cons.mp hnd
      rcases List.mem_cons.mp hp with hpq | hpt
      · subst hpq
        obtain ⟨f, s', hqi, _, _⟩ := validate_ok_shape r qn qt hv
        rw [newRegistryLoop_types_pres t (r.addType qn qt) r' qn h
          (fun p' hp' hpeq =>
            hnd2.1 (by rw [← hpeq]; exact List.mem_map_of_mem Prod.fst hp'))]
        rw [addType_eq r qn qt f hqi]
        exact lookupA_insertA_self _ _ _
      · exact ih (r.addType qn qt) r' h hnd2.2 p hpt

lemma newRegistryLoop_rtypes_member :
    ∀ (descs : List (String × GoType)) (r r' : Registry),
      newRegistryLoop descs r = .ok r' →
      ∀ p ∈ descs, ∀ f, p.2.init = some f →
        (lookupA r'.rtypes (typeOf (f ()))).isSome ∧
        (lookupA r'.rtypes (typeOf (f ())).elem).isSome := by
  intro descs
  induction descs with
  | nil => intro r r' _ p hp; cases hp
  | cons q t ih =>
    intro r r' h p hp f hf
    obtain ⟨qn, qt⟩ := q
    cases hv : r.validate qn qt with
    | error e =>
      rw [show newRegistryLoop ((qn, qt) :: t) r = .error e from by
        simp [newRegistryLoop, hv]] at h
      exact Except.noConfusion h
    | ok u =>
      cases u
      rw [show newRegistryLoop ((qn, qt) :: t) r =
          newRegistryLoop t (r.addType qn qt) from by
        simp [newRegistryLoop, hv]] at h
      rcases List.mem_cons.mp hp with hpq | hpt
      · subst hpq
        simp only at hf
        constructor
        · refine newRegistryLoop_rtypes_isSome_pres t _ r' _ h ?_
          rw [addType_eq r qn qt f hf]
          exact lookupA_insertA_isSome _ _ _ _
            (by rw [lookupA_insertA_self]; rfl)
        · refine newRegistryLoop_rtypes_isSome_pres t _ r' _ h ?_
          rw [addType_eq r qn qt f hf]
          exact Option.isSome_iff_exists.mpr
            ⟨qn, lookupA_insertA_self _ _ _⟩
      · exact ih (r.addType qn qt) r' h p hpt f hf

/-- C5: registry construction is all-or-nothing.  If any descriptor fails
validation (bad name, nil or nil-returning factory, non-pointer or
non-struct shape, or a failed codec round trip of the zero value),
`NewRegistry` returns an error and no registry; if every descriptor
validates, it returns a registry indexing every descriptor by name and
holding reverse-index entries for the factory's produced shape, both the
pointer type and its struct pointee. -/
theorem newRegistry_all_or_nothing (descs : List (String × GoType))
    (opts : List RegOpt) {r0 : Registry}
    (h0 : applyRegOpts opts { codec := jsonCodec, types := [], rtypes := [] } =
      .ok r0) :
    ((∃ p ∈ descs, ∃ e, r0.validate p.1 p.2 = .error e) →
      ∃ e', NewRegistry descs opts = .error e') ∧
    ((∀ p ∈ descs, r0.validate p.1 p.2 = .ok ()) →
      ∃ r, NewRegistry descs opts = .ok r ∧
        ((descs.map Prod.fst).Nodup →
          ∀ p ∈ descs,
            lookupA r.types p.1 = some p.2 ∧
            ∃ f, p.2.init = some f ∧
              (lookupA r.rtypes (typeOf (f ()))).isSome ∧
              (lookupA r.rtypes (typeOf (f ())).elem).isSome)) := by
  have hNR : NewRegistry descs opts = newRegistryLoop descs r0 := by
    unfold NewRegistry
    rw [h0]
  constructor
  · intro hbad
    rw [hNR]
    exact newRegistryLoop_err_of_invalid descs r0 r0 rfl hbad
  · intro hgood
    obtain ⟨r, hr⟩ := newRegistryLoop_ok_of_valid descs r0 r0 rfl hgood
    refine ⟨r, by rw [hNR]; exact hr, ?_⟩
    intro hnd p hp
    refine ⟨newRegistryLoop_binds descs r0 r hr hnd p hp, ?_⟩
    obtain ⟨f, s', hfi, _, _⟩ := validate_ok_shape r0 p.1 p.2 (hgood p hp)
    have hm := newRegistryLoop_rtypes_member descs r0 r hr p hp f hfi
    exact ⟨f, hfi, hm.1, hm.2⟩

/-- Witness for C5 at one valid descriptor and no options. -/
theorem newRegistry_all_or_nothing_witness :
    ((∃ p ∈ [("order-placed", opInit)], ∃ e,
        ({ codec := jsonCodec, types := [], rtypes := [] } : Registry).validate
          p.1 p.2 = .error e) →
      ∃ e', NewRegistry [("order-placed", opInit)] [] = .error e') ∧
    ((∀ p ∈ [("order-placed", opInit)],
        ({ codec := jsonCodec, types := [], rtypes := [] } : Registry).validate
          p.1 p.2 = .ok ()) →
      ∃ r, NewRegistry [("order-placed", opInit)] [] = .ok r ∧
        ((([("order-placed", opInit)] : List (String × GoType)).map
            Prod.fst).Nodup →
          ∀ p ∈ [("order-placed", opInit)],
            lookupA r.types p.1 = some p.2 ∧
            ∃ f, p.2.init = some f ∧
              (lookupA r.rtypes (typeOf (f ()))).isSome ∧
              (lookupA r.rtypes (typeOf (f ())).elem).isSome)) :=
  newRegistry_all_or_nothing [("order-placed", opInit)] [] rfl

/-- C7 counterexample: two names registered with factories of the same struct
shape; the reverse index binds the shape to the later name, so
`Lookup (Init "order-a")` returns "order-b", not "order-a". -/
theorem lookup_init_collision :
    (∃ r, NewRegistry [("order-a", opInit), ("order-b", opInit)] [] = .ok r ∧
      r.Init "order-a" = .ok (.ptr (.structVal "OrderPlaced" [])) ∧
      r.Lookup (.ptr (.structVal "OrderPlaced" [])) = .ok "order-b") ∧
    "order-b" ≠ "order-a" :=
  ⟨⟨_, rfl, rfl, rfl⟩, by decide⟩

/-- Two descriptors whose factories produce values of unrelated reflect
types: neither the produced types nor their pointees collide. -/
def shapeDisjoint (p q : String × GoType) : Prop :=
  ∀ fp fq, p.2.init = some fp → q.2.init = some fq →
    typeOf (fp ()) ≠ typeOf (fq ()) ∧
    typeOf (fp ()) ≠ (typeOf (fq ())).elem ∧
    (typeOf (fp ())).elem ≠ typeOf (fq ()) ∧
    (typeOf (fp ())).elem ≠ (typeOf (fq ())).elem

lemma newRegistryLoop_rtypes_pres :
    ∀ (descs : List (String × GoType)) (r r' : Registry) (K : RType),
      newRegistryLoop descs r = .ok r' →
      (∀ p ∈ descs, ∀ f, p.2.init = some f →
        typeOf (f ()) ≠ K ∧ (typeOf (f ())).elem ≠ K) →
      lookupA r'.rtypes K = lookupA r.rtypes K := by
  intro descs
  induction descs with
  | nil =>
    intro r r' K h _
    injection h with h
    rw [h]
  | cons q t ih =>
    intro r r' K h hdis
    obtain ⟨qn, qt⟩ := q
    cases hv : r.validate qn qt with
    | error e =>
      rw [show newRegistryLoop ((qn, qt) :: t) r = .error e from by
        simp [newRegistryLoop, hv]] at h
      exact Except.noConfusion h
    | ok u =>
      cases u
      rw [show newRegistryLoop ((qn, qt) :: t) r =
          newRegistryLoop t (r.addType qn qt) from by
        simp [newRegistryLoop, hv]] at h
      rw [ih (r.addType qn qt) r' K h
        (fun p hp => hdis p (List.mem_cons_of_mem _ hp))]
      cases hqi : qt.init with
      | none => rw [show r.addType qn qt = r from by
          simp [Registry.addType, hqi]]
      | some f =>
        have hd := hdis (qn, qt) (List.mem_cons_self _ _) f hqi
        rw [addType_eq r qn qt f hqi]
        rw [lookupA_insertA_ne _ _ _ _ (fun hh => hd.2 hh.symm)]
        exact lookupA_insertA_ne _ _ _ _ (fun hh => hd.1 hh.symm)

lemma newRegistryLoop_rtypes_binds :
    ∀ (descs : List (String × GoType)) (r r' : Registry),
      newRegistryLoop descs r = .ok r' →
      descs.Pairwise shapeDisjoint →
      ∀ p ∈ descs, ∀ f, p.2.init = some f →
        lookupA r'.rtypes (typeOf (f ())) = some p.1 ∧
        lookupA r'.rtypes (typeOf (f ())).elem = some p.1 := by
  intro descs
  induction descs with
  | nil => intro r r' _ _ p hp; cases hp
  | cons q t ih =>
    intro r r' h hpw p hp f hf
    obtain ⟨qn, qt⟩ := q
    obtain ⟨hqdis, hpwt⟩ := List.pairwise_cons.mp hpw
    cases hv : r.validate qn qt with
    | error e =>
      rw [show newRegistryLoop ((qn, qt) :: t) r = .error e from by
        simp [newRegistryLoop, hv]] at h
      exact Except.noConfusion h
    | ok u =>
      cases u
      rw [show newRegistryLoop ((qn, qt) :: t) r =
          newRegistryLoop t (r.addType qn qt) from by
        simp [newRegistryLoop, hv]] at h
      rcases List.mem_cons.mp hp with hpq | hpt
      · subst hpq
        simp only at hf
        obtain ⟨f2, s', hfi2, _, hshape⟩ := validate_ok_shape r qn qt hv
        rw [hf] at hfi2
        injection hfi2 with hfe
        rw [← hfe] at hshape
        have hne : (typeOf (f ())).elem ≠ typeOf (f ()) := by
          rw [hshape]
          exact fun hh => RType.noConfusion hh
        have hkeys : ∀ p' ∈ t, ∀ f', p'.2.init = some f' →
            (typeOf (f' ()) ≠ typeOf (f ()) ∧
              (typeOf (f' ())).elem ≠ typeOf (f ())) ∧
            (typeOf (f' ()) ≠ (typeOf (f ())).elem ∧
              (typeOf (f' ())).elem ≠ (typeOf (f ())).elem) := by
          intro p' hp' f' hf'
          have hd := hqdis p' hp' f f' hf hf'
          exact ⟨⟨fun hh => hd.1 hh.symm, fun hh => hd.2.1 hh.symm⟩,
                 ⟨fun hh => hd.2.2.1 hh.symm, fun hh => hd.2.2.2 hh.symm⟩⟩
        constructor
        · rw [newRegistryLoop_rtypes_pres t _ r' _ h
            (fun p' hp' f' hf' => (hkeys p' hp' f' hf').1)]
          rw [addType_eq r qn qt f hf]
          rw [lookupA_insertA_ne _ _ _ _ (fun hh => hne hh.symm)]
          exact lookupA_insertA_self _ _ _
        · rw [newRegistryLoop_rtypes_pres t _ r' _ h
            (fun p' hp' f' hf' => (hkeys p' hp' f' hf').2)]
          rw [addType_eq r qn qt f hf]
          exact lookupA_insertA_self _ _ _
      · exact ih (r.addType qn qt) r' h hpwt p hpt f hf

lemma typeOf_deref_of_ptr (v : GoVal) (X : RType) (h : typeOf v = .ptrTo X) :
    typeOf (derefVal v) = X := by
  cases v with
  | ptr w => injection h
  | nil => exact RType.noConfusion h
  | structVal s fs => exact RType.noConfusion h
  | bytes bs => exact RType.noConfusion h
  | prim t x => exact RType.noConfusion h

/-- C7 (amended): provided registered names are unique and distinct
descriptors produce values of distinct shapes, `Lookup` applied to
`Init name` returns that name, `Lookup` resolves the same name for the
pointer value and for the struct value it points to, and `Lookup` fails with
the `NoRegisteredType` condition on every shape that was never registered.
Without the shape-distinctness proviso the reverse index binds a shared
shape to the latest-registered name (see the collision counterexample). -/
theorem lookup_init_inverse (descs : List (String × GoType))
    (opts : List RegOpt) {r0 : Registry}
    (h0 : applyRegOpts opts { codec := jsonCodec, types := [], rtypes := [] } =
      .ok r0)
    (hrt0 : r0.rtypes = [])
    (hnd : (descs.map Prod.fst).Nodup)
    (hvalid : ∀ p ∈ descs, r0.validate p.1 p.2 = .ok ())
    (hdisj : descs.Pairwise shapeDisjoint) :
    ∃ r, NewRegistry descs opts = .ok r ∧
      (∀ p ∈ descs, ∃ f, p.2.init = some f ∧
        r.Init p.1 = .ok (f ()) ∧
        r.Lookup (f ()) = .ok p.1 ∧
        r.Lookup (derefVal (f ())) = .ok p.1) ∧
      (∀ v, (∀ p ∈ descs, ∀ f, p.2.init = some f →
          typeOf (f ()) ≠ typeOf v ∧ (typeOf (f ())).elem ≠ typeOf v) →
        r.Lookup v = .error (.noTypeForStruct (typeDesc (typeOf v)))) := by
  have hNR : NewRegistry descs opts = newRegistryLoop descs r0 := by
    unfold NewRegistry
    rw [h0]
  obtain ⟨r, hr⟩ := newRegistryLoop_ok_of_valid descs r0 r0 rfl hvalid
  refine ⟨r, by rw [hNR]; exact hr, ?_, ?_⟩
  · intro p hp
    obtain ⟨f, s', hfi, _, hshape⟩ := validate_ok_shape r0 p.1 p.2 (hvalid p hp)
    have hbind := newRegistryLoop_binds descs r0 r hr hnd p hp
    have hrt := newRegistryLoop_rtypes_binds descs r0 r hr hdisj p hp f hfi
    refine ⟨f, hfi, ?_, ?_, ?_⟩
    · unfold Registry.Init
      rw [hbind]
      show (match p.2.init with
            | some f2 => Except.ok (f2 ())
            | none =>
              Except.error (GoErr.plain "nil init func invoked")) = .ok (f ())
      rw [hfi]
    · simp only [Registry.Lookup]
      rw [hrt.1]
    · simp only [Registry.Lookup]
      rw [typeOf_deref_of_ptr (f ()) (.structTy s') hshape,
          show RType.structTy s' = (typeOf (f ())).elem from by
            rw [hshape]; rfl]
      rw [hrt.2]
  · intro v hno
    have hpres := newRegistryLoop_rtypes_pres descs r0 r (typeOf v) hr hno
    simp only [Registry.Lookup]
    rw [hpres, hrt0]
    rfl

/-- Witness for C7 at a single registered descriptor. -/
theorem lookup_init_inverse_witness :
    ∃ r, NewRegistry [("order-placed", opInit)] [] = .ok r ∧
      (∀ p ∈ [("order-placed", opInit)], ∃ f, p.2.init = some f ∧
        r.Init p.1 = .ok (f ()) ∧
        r.Lookup (f ()) = .ok p.1 ∧
        r.Lookup (derefVal (f ())) = .ok p.1) ∧
      (∀ v, (∀ p ∈ [("order-placed", opInit)], ∀ f, p.2.init = some f →
          typeOf (f ()) ≠ typeOf v ∧ (typeOf (f ())).elem ≠ typeOf v) →
        r.Lookup v = .error (.noTypeForStruct (typeDesc (typeOf v)))) :=
  lookup_init_inverse [("order-placed", opInit)] [] rfl rfl (by decide)
    (by decide)
    (List.Pairwise.cons (fun q hq => absurd hq (List.not_mem_nil q))
      List.Pairwise.nil)
